import Mathlib

/-!
Verification of the Triton VM front end (instruction set, assembler,
algebraic-execution-trace builder) against its specification.

The definitions below are a shallow embedding of
`triton-opcodes/src/instruction.rs` and `triton-vm/src/vm.rs`.
Machine integers are modelled as `Nat`/`Int`; field elements of the
B-field are `Fin BQUOTIENT`; fallible Rust code (`Result`, panics)
returns `Except`/`Option`.
-/

/-- characteristic of the B-field used throughout the VM:
`BFieldElement::QUOTIENT = 2^64 - 2^32 + 1` (from the `twenty_first`
library, consumed as a given constant). -/
def BQUOTIENT : Nat := 18446744069414584321

/-- an element of the B-field, in canonical form `0 ≤ v < BQUOTIENT`. -/
abbrev BFieldElement := Fin BQUOTIENT

/-- embedding of `BFieldElement::new`: reduce a machine integer modulo the
field characteristic. -/
def bfe (n : Nat) : BFieldElement := ⟨n % BQUOTIENT, Nat.mod_lt n (by decide)⟩

/-- the type `Ord16` from `ord_n.rs`: a stack-register index `ST0 … ST15`. -/
abbrev Ord16 := Fin 16

/-- the type `Ord7` from `ord_n.rs`: an instruction-bit index `IB0 … IB6`. -/
abbrev Ord7 := Fin 7

/-- embedding of `ord16_to_bfe`. -/
def ord16_to_bfe (n : Ord16) : BFieldElement := bfe n.val

/-- the enum `DivinationHint`. -/
inductive DivinationHint where
  | Quotient
deriving DecidableEq, Repr

/-- the enum `AnInstruction<Dest>`: one constructor per instruction variant,
in declaration order, parametrized by the type of `call` destinations. -/
inductive AnInstruction (Dest : Type) where
  | Pop
  | Push (arg : BFieldElement)
  | Divine (hint : Option DivinationHint)
  | Dup (arg : Ord16)
  | Swap (arg : Ord16)
  | Nop
  | Skiz
  | Call (dest : Dest)
  | Return
  | Recurse
  | Assert
  | Halt
  | ReadMem
  | WriteMem
  | Hash
  | DivineSibling
  | AssertVector
  | Add
  | Mul
  | Invert
  | Split
  | Eq
  | Lsb
  | XxAdd
  | XxMul
  | XInvert
  | XbMul
  | ReadIo
  | WriteIo
deriving DecidableEq, Repr

/-- an `Instruction` has `call` addresses encoded as absolute field elements. -/
abbrev Instruction := AnInstruction BFieldElement

/-- the enum `LabelledInstruction`: either an instruction whose `call`
addresses are label names, or a label declaration. -/
inductive LabelledInstruction where
  | Instruction (instr : AnInstruction String)
  | Label (label_name : String)
deriving DecidableEq, Repr

namespace AnInstruction

/-- embedding of `AnInstruction::opcode`: the hand-assigned unique opcode. -/
def opcode {Dest : Type} : AnInstruction Dest → Nat
  | .Pop => 2
  | .Push _ => 1
  | .Divine _ => 4
  | .Dup _ => 5
  | .Swap _ => 9
  | .Nop => 8
  | .Skiz => 6
  | .Call _ => 13
  | .Return => 12
  | .Recurse => 16
  | .Assert => 10
  | .Halt => 0
  | .ReadMem => 20
  | .WriteMem => 24
  | .Hash => 28
  | .DivineSibling => 32
  | .AssertVector => 36
  | .Add => 14
  | .Mul => 18
  | .Invert => 40
  | .Split => 44
  | .Eq => 22
  | .Lsb => 48
  | .XxAdd => 52
  | .XxMul => 56
  | .XInvert => 60
  | .XbMul => 26
  | .ReadIo => 64
  | .WriteIo => 30

/-- embedding of `AnInstruction::size`: the word size, 2 for the four
argument-carrying instructions, 1 otherwise. -/
def size {Dest : Type} : AnInstruction Dest → Nat
  | .Push _ => 2
  | .Dup _ => 2
  | .Swap _ => 2
  | .Call _ => 2
  | _ => 1

/-- embedding of `AnInstruction::ib`: the i-th instruction bit,
`(opcode >> bit_number) & 1`. -/
def ib {Dest : Type} (self : AnInstruction Dest) (arg : Ord7) : BFieldElement :=
  bfe ((self.opcode >>> arg.val) &&& 1)

/-- embedding of `AnInstruction::strip`: drop the specific argument in
favor of a default one. -/
def strip {Dest : Type} [Inhabited Dest] : AnInstruction Dest → AnInstruction Dest
  | .Push _ => .Push (bfe 0)
  | .Divine _ => .Divine none
  | .Dup _ => .Dup 0
  | .Swap _ => .Swap 0
  | .Call _ => .Call default
  | i => i

/-- embedding of `AnInstruction::map_call_address`. -/
def map_call_address {Dest NewDest : Type} (f : Dest → NewDest) :
    AnInstruction Dest → AnInstruction NewDest
  | .Pop => .Pop
  | .Push x => .Push x
  | .Divine x => .Divine x
  | .Dup x => .Dup x
  | .Swap x => .Swap x
  | .Nop => .Nop
  | .Skiz => .Skiz
  | .Call label => .Call (f label)
  | .Return => .Return
  | .Recurse => .Recurse
  | .Assert => .Assert
  | .Halt => .Halt
  | .ReadMem => .ReadMem
  | .WriteMem => .WriteMem
  | .Hash => .Hash
  | .DivineSibling => .DivineSibling
  | .AssertVector => .AssertVector
  | .Add => .Add
  | .Mul => .Mul
  | .Invert => .Invert
  | .Split => .Split
  | .Eq => .Eq
  | .Lsb => .Lsb
  | .XxAdd => .XxAdd
  | .XxMul => .XxMul
  | .XInvert => .XInvert
  | .XbMul => .XbMul
  | .ReadIo => .ReadIo
  | .WriteIo => .WriteIo

end AnInstruction

/-- embedding of `Instruction::arg`: the inline argument of the four
double-word instructions, `None` for all others. -/
def AnInstruction.arg : Instruction → Option BFieldElement
  | .Push arg => some arg
  | .Dup arg => some (ord16_to_bfe arg)
  | .Swap arg => some (ord16_to_bfe arg)
  | .Call arg => some arg
  | _ => none

/-- the iteration order of `Instruction::iter()` (derived `EnumIter`):
every variant once, in declaration order, with defaulted arguments. -/
def instruction_iter : List Instruction :=
  [.Pop, .Push (bfe 0), .Divine none, .Dup 0, .Swap 0, .Nop, .Skiz,
   .Call (bfe 0), .Return, .Recurse, .Assert, .Halt, .ReadMem, .WriteMem,
   .Hash, .DivineSibling, .AssertVector, .Add, .Mul, .Invert, .Split, .Eq,
   .Lsb, .XxAdd, .XxMul, .XInvert, .XbMul, .ReadIo, .WriteIo]

/-- embedding of `TryFrom<u32> for Instruction`: find the first iterated
instruction with the given opcode; `none` models the `bail!` error. -/
def instruction_try_from (opcode : Nat) : Option Instruction :=
  instruction_iter.find? (fun instruction => instruction.opcode == opcode)

/-- embedding of `all_instructions_without_args`: the full instruction set
with defaulted arguments, as listed in the source. -/
def all_instructions_without_args : List Instruction :=
  [.Pop, .Push (bfe 0), .Divine none, .Dup 0, .Swap 0, .Nop, .Skiz,
   .Call (bfe 0), .Return, .Recurse, .Assert, .Halt, .ReadMem, .WriteMem,
   .Hash, .DivineSibling, .AssertVector, .Add, .Mul, .Invert, .Split, .Eq,
   .Lsb, .XxAdd, .XxMul, .XInvert, .XbMul, .ReadIo, .WriteIo]

/-- decimal value of an ASCII digit character, `none` for any other character. -/
def digitValue (c : Char) : Option Nat :=
  if 48 ≤ c.toNat ∧ c.toNat ≤ 57 then some (c.toNat - 48) else none

/-- embedding of Rusts `str::parse::<i128>`: an optional `+`/`-` sign
followed by one or more ASCII digits, rejected when the value does not fit
into an `i128`. -/
def parseI128 (s : String) : Option Int :=
  let (neg, digits) : Bool × List Char :=
    match s.toList with
    | '-' :: rest => (true, rest)
    | '+' :: rest => (false, rest)
    | cs => (false, cs)
  match digits with
  | [] => none
  | _ =>
    match digits.foldlM (fun (a : Nat) c => (digitValue c).map fun d => a * 10 + d) 0 with
    | none => none
    | some n =>
      let v : Int := if neg then -(n : Int) else (n : Int)
      if -(2 ^ 127) ≤ v ∧ v ≤ 2 ^ 127 - 1 then some v else none

/-- the error values of assembly, combining the enum `TokenError` with the
`anyhow`-wrapped integer-parsing, integer-conversion and duplicate-label
errors raised by `parse_elem` and `parse`. -/
inductive ParseError where
  | UnexpectedEndOfStream
  | UnknownInstruction (token : String)
  | IntegerParseError (token : String)
  | IntegerConversionError
  | DuplicateLabels (labels : List String)
deriving DecidableEq, Repr

/-- embedding of `parse_elem`: read the next token as a signed decimal
`i128`, add the field characteristic once if negative, convert to `u64`
(failing when out of `u64` range), and reduce into a field element. -/
def parse_elem (tokens : List String) : Except ParseError BFieldElement :=
  match tokens with
  | [] => .error .UnexpectedEndOfStream
  | constant_s :: _ =>
    match parseI128 constant_s with
    | none => .error (.IntegerParseError constant_s)
    | some constant_n =>
      let constant_n128 : Int := if constant_n < 0 then constant_n + (BQUOTIENT : Int) else constant_n
      if 0 ≤ constant_n128 ∧ constant_n128 < 2 ^ 64 then
        .ok (bfe constant_n128.toNat)
      else
        .error .IntegerConversionError

/-- embedding of `parse_label`: read the next token as a label name. -/
def parse_label (tokens : List String) : Except ParseError String :=
  match tokens with
  | [] => .error .UnexpectedEndOfStream
  | label :: _ => .ok label

/-- embedding of `pseudo_instruction_is_u32`: dup, then 32 rounds of
extract-and-discard the low bit, then compare the remainder to 0 and assert. -/
def pseudo_instruction_is_u32 : List (AnInstruction String) :=
  [.Dup 0] ++
    (List.replicate 32 [AnInstruction.Lsb, .Pop]).flatten ++
    [.Push (bfe 0), .Eq, .Assert]

/-- embedding of `pseudo_instruction_split_assert`. -/
def pseudo_instruction_split_assert : List (AnInstruction String) :=
  [[.Split], pseudo_instruction_is_u32, [.Swap 1],
   pseudo_instruction_is_u32, [.Swap 1]].flatten

/-- embedding of `pseudo_instruction_lte`; `push -1` is `push (p - 1)`. -/
def pseudo_instruction_lte : List (AnInstruction String) :=
  [[.Push (bfe (BQUOTIENT - 1)), .Mul, .Add],
   pseudo_instruction_split_assert,
   [.Push (bfe 0), .Eq, .Swap 1, .Pop]].flatten

/-- embedding of `pseudo_instruction_lt`. -/
def pseudo_instruction_lt : List (AnInstruction String) :=
  [[.Push (bfe 1), .Add], pseudo_instruction_lte].flatten

/-- embedding of `pseudo_instruction_div`: divine the quotient, check it is
a u32, recompute the remainder, check `r < d`, reorder the stack. -/
def pseudo_instruction_div : List (AnInstruction String) :=
  [[.Divine (some .Quotient)],
   pseudo_instruction_is_u32,
   [.Dup 2, .Dup 1, .Mul, .Dup 2, .Swap 1, .Push (bfe (BQUOTIENT - 1)),
    .Mul, .Add, .Dup 3, .Dup 1],
   pseudo_instruction_lt,
   [.Assert, .Swap 2, .Pop, .Swap 2, .Pop]].flatten

/-- embedding of `pseudo_instruction_and`: 32 interleaved low-bit
extractions, two u32 assertions, then a 32-round weighted resummation with
descending powers of two. -/
def pseudo_instruction_and : List (AnInstruction String) :=
  (List.replicate 32 [AnInstruction.Lsb, .Swap 2, .Lsb, .Swap 2]).flatten ++
    [.Push (bfe 0), .Eq, .Assert, .Push (bfe 0), .Eq, .Assert, .Push (bfe 0)] ++
    ((List.range 32).reverse.map fun i =>
      [AnInstruction.Swap 2, .Mul, .Push (bfe (2 ^ i)), .Mul, .Add]).flatten

/-- embedding of `pseudo_instruction_xor`, computing
`a^b = a + b - 2*(a&b)`; `push -2` is `push (p - 2)`. -/
def pseudo_instruction_xor : List (AnInstruction String) :=
  [[.Dup 1, .Dup 1],
   pseudo_instruction_and,
   [.Push (bfe (BQUOTIENT - 2)), .Mul, .Add, .Add]].flatten

/-- embedding of `pseudo_instruction_reverse`: 32 low-bit extractions with
a u32 assertion, then resummation with ascending powers of two. -/
def pseudo_instruction_reverse : List (AnInstruction String) :=
  (List.replicate 32 [AnInstruction.Lsb, .Swap 1]).flatten ++
    [.Push (bfe 0), .Eq, .Assert, .Push (bfe 0)] ++
    ((List.range 32).map fun i =>
      [AnInstruction.Swap 1, .Push (bfe (2 ^ i)), .Mul, .Add]).flatten

/-- embedding of `pseudo_instruction_eq_vector`: pointwise equality of two
5-element vectors, multiplied together. -/
def pseudo_instruction_eq_vector : List (AnInstruction String) :=
  [.Dup 0, .Dup 5, .Eq,
   .Dup 1, .Dup 6, .Eq, .Mul,
   .Dup 2, .Dup 7, .Eq, .Mul,
   .Dup 3, .Dup 8, .Eq, .Mul,
   .Dup 4, .Dup 9, .Eq, .Mul]

/-- embedding of `str::strip_suffix(':')`: the token without its trailing
colon, when it has one. -/
def stripColonSuffix (token : String) : Option String :=
  match token.toList.reverse with
  | ':' :: rest => some (String.mk rest.reverse)
  | _ => none

/-- embedding of `parse_token`: a token ending in `:` declares a label;
otherwise the token is dispatched against the mnemonic table, expanding
pseudo-instructions. The result carries the parsed labelled instructions
and the number of additional tokens consumed from the stream
(1 for `push` and `call`, 0 for every other mnemonic). -/
def parse_token (token : String) (tokens : List String) :
    Except ParseError (List LabelledInstruction × Nat) :=
  match stripColonSuffix token with
  | some label_name => .ok ([.Label label_name], 0)
  | none =>
    let wrap : List (AnInstruction String) → Nat →
        Except ParseError (List LabelledInstruction × Nat) :=
      fun instruction n => .ok (instruction.map LabelledInstruction.Instruction, n)
    match token with
    | "pop" => wrap [.Pop] 0
    | "push" =>
      match parse_elem tokens with
      | .error e => .error e
      | .ok elem => wrap [.Push elem] 1
    | "divine" => wrap [.Divine none] 0
    | "divine_quotient" => wrap [.Divine (some .Quotient)] 0
    | "dup0" => wrap [.Dup 0] 0
    | "dup1" => wrap [.Dup 1] 0
    | "dup2" => wrap [.Dup 2] 0
    | "dup3" => wrap [.Dup 3] 0
    | "dup4" => wrap [.Dup 4] 0
    | "dup5" => wrap [.Dup 5] 0
    | "dup6" => wrap [.Dup 6] 0
    | "dup7" => wrap [.Dup 7] 0
    | "dup8" => wrap [.Dup 8] 0
    | "dup9" => wrap [.Dup 9] 0
    | "dup10" => wrap [.Dup 10] 0
    | "dup11" => wrap [.Dup 11] 0
    | "dup12" => wrap [.Dup 12] 0
    | "dup13" => wrap [.Dup 13] 0
    | "dup14" => wrap [.Dup 14] 0
    | "dup15" => wrap [.Dup 15] 0
    | "swap1" => wrap [.Swap 1] 0
    | "swap2" => wrap [.Swap 2] 0
    | "swap3" => wrap [.Swap 3] 0
    | "swap4" => wrap [.Swap 4] 0
    | "swap5" => wrap [.Swap 5] 0
    | "swap6" => wrap [.Swap 6] 0
    | "swap7" => wrap [.Swap 7] 0
    | "swap8" => wrap [.Swap 8] 0
    | "swap9" => wrap [.Swap 9] 0
    | "swap10" => wrap [.Swap 10] 0
    | "swap11" => wrap [.Swap 11] 0
    | "swap12" => wrap [.Swap 12] 0
    | "swap13" => wrap [.Swap 13] 0
    | "swap14" => wrap [.Swap 14] 0
    | "swap15" => wrap [.Swap 15] 0
    | "nop" => wrap [.Nop] 0
    | "skiz" => wrap [.Skiz] 0
    | "call" =>
      match parse_label tokens with
      | .error e => .error e
      | .ok label => wrap [.Call label] 1
    | "return" => wrap [.Return] 0
    | "recurse" => wrap [.Recurse] 0
    | "assert" => wrap [.Assert] 0
    | "halt" => wrap [.Halt] 0
    | "read_mem" => wrap [.ReadMem] 0
    | "write_mem" => wrap [.WriteMem] 0
    | "hash" => wrap [.Hash] 0
    | "divine_sibling" => wrap [.DivineSibling] 0
    | "assert_vector" => wrap [.AssertVector] 0
    | "add" => wrap [.Add] 0
    | "mul" => wrap [.Mul] 0
    | "invert" => wrap [.Invert] 0
    | "split" => wrap [.Split] 0
    | "eq" => wrap [.Eq] 0
    | "lsb" => wrap [.Lsb] 0
    | "xxadd" => wrap [.XxAdd] 0
    | "xxmul" => wrap [.XxMul] 0
    | "xinvert" => wrap [.XInvert] 0
    | "xbmul" => wrap [.XbMul] 0
    | "neg" => wrap [.Push (bfe (BQUOTIENT - 1)), .Mul] 0
    | "sub" => wrap [.Swap 1, .Push (bfe (BQUOTIENT - 1)), .Mul, .Add] 0
    | "lte" => wrap pseudo_instruction_lte 0
    | "lt" => wrap pseudo_instruction_lt 0
    | "and" => wrap pseudo_instruction_and 0
    | "xor" => wrap pseudo_instruction_xor 0
    | "reverse" => wrap pseudo_instruction_reverse 0
    | "div" => wrap pseudo_instruction_div 0
    | "is_u32" => wrap pseudo_instruction_is_u32 0
    | "split_assert" => wrap pseudo_instruction_split_assert 0
    | "eq_vector" => wrap pseudo_instruction_eq_vector 0
    | "read_io" => wrap [.ReadIo] 0
    | "write_io" => wrap [.WriteIo] 0
    | _ => .error (.UnknownInstruction token)

/-- the token-consuming `while` loop inside `parse`, with explicit fuel.
The wrapper passes fuel `tokens.length`; every iteration consumes at least
the head token, so the out-of-fuel branch is unreachable. -/
def parse_tokens_go : Nat → List String → Except ParseError (List LabelledInstruction)
  | _, [] => .ok []
  | 0, _ :: _ => .error .UnexpectedEndOfStream
  | fuel + 1, token :: rest =>
    match parse_token token rest with
    | .error e => .error e
    | .ok (instruction, n) =>
      match parse_tokens_go fuel (rest.drop n) with
      | .error e => .error e
      | .ok more => .ok (instruction ++ more)

/-- the token-consuming loop of `parse`, before duplicate-label checking. -/
def parse_tokens (tokens : List String) : Except ParseError (List LabelledInstruction) :=
  parse_tokens_go tokens.length tokens

/-- the `all_labels` pass of `parse`: labels declared by the parsed
instructions, in order. -/
def all_labels (instructions : List LabelledInstruction) : List String :=
  (instructions.map fun instr =>
    match instr with
    | .Instruction _ => []
    | .Label label => [label]).flatten

/-- the duplicate-detection fold of `parse`: walk the declared labels with
a set of already-seen labels, collecting every label seen at least twice
(the two `HashSet`s are modelled as duplicate-free lists). -/
def find_duplicate_labels : List String → List String → List String → List String
  | [], _, duplicate_labels => duplicate_labels
  | label :: rest, seen_labels, duplicate_labels =>
    if label ∈ seen_labels then
      find_duplicate_labels rest seen_labels
        (if label ∈ duplicate_labels then duplicate_labels
         else duplicate_labels ++ [label])
    else
      find_duplicate_labels rest (seen_labels ++ [label]) duplicate_labels

/-- the body of `parse` after tokenization: run the token loop, then
reject duplicate label declarations. -/
def parse_token_list (tokens : List String) : Except ParseError (List LabelledInstruction) :=
  match parse_tokens tokens with
  | .error e => .error e
  | .ok instructions =>
    match find_duplicate_labels (all_labels instructions) [] [] with
    | [] => .ok instructions
    | duplicates => .error (.DuplicateLabels duplicates)

/-- scanner state for comment removal: outside any comment, after a single
`/`, or inside a `//` comment. -/
inductive CommentState where
  | normal
  | seenSlash
  | inComment

/-- embedding of the comment-stripping regex replacement in `parse`
(pattern `//.*?(?:\n|$)`): drop every substring from `//` to the end of
its line, the newline included. -/
def remove_comments_go : CommentState → List Char → List Char
  | .normal, [] => []
  | .normal, c :: rest =>
    if c = '/' then remove_comments_go .seenSlash rest
    else c :: remove_comments_go .normal rest
  | .seenSlash, [] => ['/']
  | .seenSlash, c :: rest =>
    if c = '/' then remove_comments_go .inComment rest
    else '/' :: c :: remove_comments_go .normal rest
  | .inComment, [] => []
  | .inComment, c :: rest =>
    if c = '\n' then remove_comments_go .normal rest
    else remove_comments_go .inComment rest

/-- embedding of `str::split_whitespace`: maximal runs of
non-whitespace characters, in order. -/
def split_whitespace_go : List Char → List Char → List String
  | [], acc => if acc.isEmpty then [] else [String.mk acc.reverse]
  | c :: rest, acc =>
    if c.isWhitespace then
      if acc.isEmpty then split_whitespace_go rest []
      else String.mk acc.reverse :: split_whitespace_go rest []
    else split_whitespace_go rest (c :: acc)

/-- tokenization in `parse`: strip comments, split on whitespace. -/
def tokenize (code_with_comments : String) : List String :=
  split_whitespace_go (remove_comments_go .normal code_with_comments.toList) []

/-- embedding of `parse`: strip comments, split the remaining text on
whitespace, parse the token stream, and reject duplicate labels. -/
def parse (code_with_comments : String) : Except ParseError (List LabelledInstruction) :=
  parse_token_list (tokenize code_with_comments)

/-- decimal rendering of a field element in canonical form, the display
used by the repository for the small representative arguments exercised
here (`push 42`). -/
def bfeToString (x : BFieldElement) : String := Nat.repr x.val

/-- Modelled from the spec: `ord_n.rs` is not under `src/`. The display of
an `Ord16` stack index is its decimal value, giving the canonical mnemonic
forms `dup0` … `dup15` and `swap1` … `swap15` pinned by the repository
test `all_instructions_displayed`. -/
def ord16ToString (i : Ord16) : String := Nat.repr i.val

/-- embedding of `Display for AnInstruction<Dest>` at `Dest = String`:
the canonical textual form of each instruction. -/
def displayAnInstruction : AnInstruction String → String
  | .Pop => "pop"
  | .Push arg => "push " ++ bfeToString arg
  | .Divine (some .Quotient) => "divine_quotient"
  | .Divine none => "divine"
  | .Dup arg => "dup" ++ ord16ToString arg
  | .Swap arg => "swap" ++ ord16ToString arg
  | .Nop => "nop"
  | .Skiz => "skiz"
  | .Call arg => "call " ++ arg
  | .Return => "return"
  | .Recurse => "recurse"
  | .Assert => "assert"
  | .Halt => "halt"
  | .ReadMem => "read_mem"
  | .WriteMem => "write_mem"
  | .Hash => "hash"
  | .DivineSibling => "divine_sibling"
  | .AssertVector => "assert_vector"
  | .Add => "add"
  | .Mul => "mul"
  | .Invert => "invert"
  | .Split => "split"
  | .Eq => "eq"
  | .Lsb => "lsb"
  | .XxAdd => "xxadd"
  | .XxMul => "xxmul"
  | .XInvert => "xinvert"
  | .XbMul => "xbmul"
  | .ReadIo => "read_io"
  | .WriteIo => "write_io"

/-- embedding of `Display for LabelledInstruction`. -/
def displayLabelledInstruction : LabelledInstruction → String
  | .Instruction instr => displayAnInstruction instr
  | .Label label_name => label_name ++ ":"

/-- embedding of `all_labelled_instructions_with_args`: every instruction
with a representative argument where applicable. -/
def all_labelled_instructions_with_args : List LabelledInstruction :=
  [.Pop, .Push (bfe 42), .Divine none, .Divine (some .Quotient),
   .Dup 0, .Dup 1, .Dup 2, .Dup 3, .Dup 4, .Dup 5, .Dup 6, .Dup 7,
   .Dup 8, .Dup 9, .Dup 10, .Dup 11, .Dup 12, .Dup 13, .Dup 14, .Dup 15,
   .Swap 1, .Swap 2, .Swap 3, .Swap 4, .Swap 5, .Swap 6, .Swap 7, .Swap 8,
   .Swap 9, .Swap 10, .Swap 11, .Swap 12, .Swap 13, .Swap 14, .Swap 15,
   .Nop, .Skiz, .Call "foo", .Return, .Recurse, .Assert, .Halt,
   .ReadMem, .WriteMem, .Hash, .DivineSibling, .AssertVector,
   .Add, .Mul, .Invert, .Split, .Eq, .Lsb,
   .XxAdd, .XxMul, .XInvert, .XbMul, .ReadIo, .WriteIo].map
    LabelledInstruction.Instruction

deriving instance DecidableEq for Except

/-- a label map, like `HashMap<String, usize>` in `convert_labels`:
inserting overwrites any previous binding. -/
def insertLabel (label_map : String → Option Nat) (key : String) (value : Nat) :
    String → Option Nat :=
  fun name => if name = key then some value else label_map name

/-- pass 1 of `convert_labels`: walk the program once, recording each label
declaration at the running word-address counter and advancing the counter
by each instruction's word size. -/
def build_label_map : List LabelledInstruction → (String → Option Nat) → Nat →
    (String → Option Nat)
  | [], label_map, _ => label_map
  | .Label label_name :: rest, label_map, instruction_pointer =>
    build_label_map rest (insertLabel label_map label_name instruction_pointer)
      instruction_pointer
  | .Instruction instr :: rest, label_map, instruction_pointer =>
    build_label_map rest label_map (instruction_pointer + instr.size)

/-- the call-resolving closure passed to `map_call_address` in
`convert_labels_helper`; a failing lookup models the `expect` panic.
Instructions other than `call` carry no destination, so the dummy
function passed to `map_call_address` for them is never applied. -/
def map_call_address_checked (instr : AnInstruction String)
    (label_map : String → Option Nat) : Option Instruction :=
  match instr with
  | .Call label_name =>
    (label_map label_name).map fun absolute_address => .Call (bfe absolute_address)
  | other => some (other.map_call_address fun _ => bfe 0)

/-- embedding of `convert_labels_helper`: drop labels, resolve calls. -/
def convert_labels_helper (instruction : LabelledInstruction)
    (label_map : String → Option Nat) : Option (List Instruction) :=
  match instruction with
  | .Label _ => some []
  | .Instruction instr =>
    (map_call_address_checked instr label_map).map
      fun unlabelled_instruction => [unlabelled_instruction]

/-- embedding of `convert_labels`: build the label map, then replace every
label with its looked-up address, dropping the declarations. -/
def convert_labels (program : List LabelledInstruction) : Option (List Instruction) :=
  let label_map := build_label_map program (fun _ => none) 0
  (program.mapM fun labelled_instruction =>
    convert_labels_helper labelled_instruction label_map).map List.flatten

/-- the address the spec assigns to a label declared after a prefix of
instructions whose word sizes sum to `addr` (second definition, written
from the spec's words for comparison with `build_label_map`). -/
def spec_label_address_from : List LabelledInstruction → Nat → String → Option Nat
  | [], _, _ => none
  | .Label label_name :: rest, addr, name =>
    if name = label_name then some addr else spec_label_address_from rest addr name
  | .Instruction instr :: rest, addr, name =>
    spec_label_address_from rest (addr + instr.size) name

/-- the spec address of a label: the sum of the word sizes of all
instructions preceding its declaration. -/
def spec_label_address (program : List LabelledInstruction) (name : String) : Option Nat :=
  spec_label_address_from program 0 name

/-- labels declared by a program, in order. -/
def declared_labels (program : List LabelledInstruction) : List String :=
  program.filterMap fun li =>
    match li with
    | .Label label_name => some label_name
    | .Instruction _ => none

/-- labels used as `call` destinations in a program. -/
def called_labels (program : List LabelledInstruction) : List String :=
  program.filterMap fun li =>
    match li with
    | .Instruction (.Call label_name) => some label_name
    | _ => none

/-- the resolved program according to the spec: label declarations are
dropped, and every call destination becomes its label's spec address. -/
def spec_resolved_program (program : List LabelledInstruction) : List Instruction :=
  program.filterMap fun li =>
    match li with
    | .Label _ => none
    | .Instruction instr =>
      some (instr.map_call_address fun label_name =>
        bfe ((spec_label_address program label_name).getD 0))

/-- the permutation's round count `NUM_ROUNDS`, consumed as a given
constant from `twenty_first`; the source comment "Round index 9 indicates
an output row" pins `NUM_ROUNDS = 8`. -/
def NUM_ROUNDS : Nat := 8

/-- the permutation's state width `STATE_SIZE`, a given constant. -/
def STATE_SIZE : Nat := 16

/-- the constant `NUM_ROUND_CONSTANTS = 2 * STATE_SIZE`: round constants
per round. -/
def NUM_ROUND_CONSTANTS : Nat := 32

/-- one row of the hash trace: the ROUNDNUMBER column, the STATE columns
and the CONSTANT columns of the hash table's base row (the flat column
indexing `base_table_index` lives in the out-of-scope table module). -/
structure HashTraceRow where
  roundnumber : BFieldElement
  state : List BFieldElement
  constants : List BFieldElement
deriving DecidableEq, Repr

/-- the struct `AlgebraicExecutionTrace`: the processor trace and the hash
trace, both growable tables of rows. -/
structure AlgebraicExecutionTrace where
  processor_matrix : List (List BFieldElement)
  hash_matrix : List HashTraceRow
deriving DecidableEq, Repr

/-- the `Default` instance of `AlgebraicExecutionTrace`: zero rows in both
tables. -/
def AlgebraicExecutionTrace.empty : AlgebraicExecutionTrace :=
  { processor_matrix := [], hash_matrix := [] }

/-- embedding of `rescue_xlix_round_constants_by_round_number`, over the
permutation's constant table `ROUND_CONSTANTS` (an external given,
passed as a function from flat index to constant); `none` models the
panic for round numbers above `NUM_ROUNDS + 1`. -/
def rescue_xlix_round_constants_by_round_number
    (ROUND_CONSTANTS : Nat → BFieldElement) (round_number : Nat) :
    Option (List BFieldElement) :=
  if round_number = 0 ∨ round_number = NUM_ROUNDS + 1 then
    some (List.replicate NUM_ROUND_CONSTANTS (bfe 0))
  else if round_number ≤ NUM_ROUNDS then
    some ((List.range NUM_ROUND_CONSTANTS).map fun rc_idx =>
      ROUND_CONSTANTS (NUM_ROUND_CONSTANTS * (round_number - 1) + rc_idx))
  else none

/-- embedding of `append_hash_trace`: append `NUM_ROUNDS + 1` rows, row
`row_idx` carrying round number `row_idx + 1`, the state snapshot
`hash_trace[row_idx]`, and that round number's constants. The constants
lookup always succeeds for the round numbers `1 … NUM_ROUNDS + 1` used
here (`rescue_xlix_round_constants_used_isSome`), so the `getD` default
modelling the panic path is never taken. -/
def AlgebraicExecutionTrace.append_hash_trace
    (ROUND_CONSTANTS : Nat → BFieldElement) (aet : AlgebraicExecutionTrace)
    (hash_trace : Fin (NUM_ROUNDS + 1) → Fin STATE_SIZE → BFieldElement) :
    AlgebraicExecutionTrace :=
  let hash_matrix_addendum : List HashTraceRow :=
    List.ofFn fun row_idx : Fin (NUM_ROUNDS + 1) =>
      let round_number := row_idx.val + 1
      { roundnumber := bfe round_number
        state := List.ofFn fun st_idx : Fin STATE_SIZE => hash_trace row_idx st_idx
        constants :=
          (rescue_xlix_round_constants_by_round_number ROUND_CONSTANTS
            round_number).getD (List.replicate NUM_ROUND_CONSTANTS (bfe 0)) }
  { aet with hash_matrix := aet.hash_matrix ++ hash_matrix_addendum }

/-- a demonstration instantiation of the external round-constant table,
used only to exhibit concrete runs. -/
def demo_round_constants : Nat → BFieldElement := fun i => bfe (i + 1)

/-- the all-zero hash-trace block, a concrete co-processor snapshot. -/
def zero_hash_trace : Fin (NUM_ROUNDS + 1) → Fin STATE_SIZE → BFieldElement :=
  fun _ _ => bfe 0

/-- the enum `VMOutput` from the out-of-scope `state` module (§6 of the
spec): either a hash co-processor trace block or one output word. -/
inductive VMOutput where
  | XlixTrace (hash_trace : Fin (NUM_ROUNDS + 1) → Fin STATE_SIZE → BFieldElement)
  | WriteOutputSymbol (written_word : BFieldElement)

/-- Modelled from the spec: the out-of-scope execution-state machine
(`VMState`, not under `src/`), through the narrow interface `simulate`
consumes (§6): a completion test, a fallible mutating step returning the
updated state, the remaining input streams and an optional output event,
and the fixed-width processor-row projection. -/
structure StepMachine (S E : Type) where
  is_complete : S → Bool
  step_mut : S → List BFieldElement → List BFieldElement →
    Except E (S × List BFieldElement × List BFieldElement × Option VMOutput)
  to_processor_row : S → List BFieldElement

/-- the effect of a step's optional output event on the AET: a hash event
splices a hash-trace block, anything else leaves the AET unchanged. -/
def apply_vm_output (ROUND_CONSTANTS : Nat → BFieldElement)
    (aet : AlgebraicExecutionTrace) (vm_output : Option VMOutput) :
    AlgebraicExecutionTrace :=
  match vm_output with
  | some (.XlixTrace hash_trace) => aet.append_hash_trace ROUND_CONSTANTS hash_trace
  | _ => aet

/-- the effect of a step's optional output event on the output stream: a
write event appends its word, anything else leaves the stream unchanged. -/
def apply_vm_output_stdout (stdout : List BFieldElement)
    (vm_output : Option VMOutput) : List BFieldElement :=
  match vm_output with
  | some (.WriteOutputSymbol written_word) => stdout ++ [written_word]
  | _ => stdout

/-- appending the row of the state just reached (`push_row` of
`to_processor_row` in the loop body of `simulate`). -/
def record_processor_row {S E : Type} (m : StepMachine S E)
    (aet : AlgebraicExecutionTrace) (state' : S) : AlgebraicExecutionTrace :=
  { aet with processor_matrix :=
      aet.processor_matrix ++ [m.to_processor_row state'] }

/-- the `while` loop of `simulate`, with explicit fuel (`none` means the
fuel ran out before the machine halted or failed). The returned `Nat`
counts the successful steps taken. -/
def simulate_go {S E : Type} (ROUND_CONSTANTS : Nat → BFieldElement)
    (m : StepMachine S E) :
    Nat → S → List BFieldElement → List BFieldElement →
    AlgebraicExecutionTrace → List BFieldElement →
    Option (AlgebraicExecutionTrace × List BFieldElement × Option E × Nat)
  | 0, state, _, _, aet, stdout =>
    if m.is_complete state then some (aet, stdout, none, 0) else none
  | fuel + 1, state, stdin, secret_in, aet, stdout =>
    if m.is_complete state then some (aet, stdout, none, 0)
    else
      match m.step_mut state stdin secret_in with
      | .error err => some (aet, stdout, some err, 0)
      | .ok (state', stdin', secret_in', vm_output) =>
        match simulate_go ROUND_CONSTANTS m fuel state' stdin' secret_in'
            (record_processor_row m
              (apply_vm_output ROUND_CONSTANTS aet vm_output) state')
            (apply_vm_output_stdout stdout vm_output) with
        | some (aet_final, stdout_final, err, n) =>
          some (aet_final, stdout_final, err, n + 1)
        | none => none

/-- embedding of `simulate`: record the initial state as the only row of a
fresh processor trace, then drive the machine until completion or failure,
returning the AET, the output stream and the optional error. -/
def simulate {S E : Type} (ROUND_CONSTANTS : Nat → BFieldElement)
    (m : StepMachine S E) (fuel : Nat) (state0 : S)
    (stdin secret_in : List BFieldElement) :
    Option (AlgebraicExecutionTrace × List BFieldElement × Option E × Nat) :=
  simulate_go ROUND_CONSTANTS m fuel state0 stdin secret_in
    { processor_matrix := [m.to_processor_row state0], hash_matrix := [] } []

/-- a demonstration step machine: counts to 2, recording each counter as a
one-column processor row. -/
def demo_step_machine : StepMachine Nat String :=
  { is_complete := fun state => decide (2 ≤ state)
    step_mut := fun state stdin secret_in => .ok (state + 1, stdin, secret_in, none)
    to_processor_row := fun state => [bfe state] }

/-- a demonstration step machine that emits one output word on its first
step and fails on its second. -/
def demo_fail_after_one : StepMachine Nat String :=
  { is_complete := fun _ => false
    step_mut := fun state stdin secret_in =>
      if state = 0 then
        .ok (state + 1, stdin, secret_in, some (.WriteOutputSymbol (bfe 7)))
      else .error "boom"
    to_processor_row := fun state => [bfe state] }

/-- a demonstration step machine whose very first step fails. -/
def demo_fail_machine : StepMachine Nat String :=
  { is_complete := fun _ => false
    step_mut := fun _ _ _ => .error "crash"
    to_processor_row := fun state => [bfe state] }

/-- C1: for every instruction `i` in the full instruction set, decoding its
opcode succeeds and returns `i`; no two distinct instructions share an
opcode; every opcode lies in `[0, 64]`. -/
theorem claim_C1_opcode_bijection :
    (∀ i ∈ all_instructions_without_args,
      instruction_try_from i.opcode = some i ∧ i.opcode ≤ 64) ∧
    (∀ i ∈ all_instructions_without_args, ∀ j ∈ all_instructions_without_args,
      i.opcode = j.opcode → i = j) := by
  decide

theorem claim_C1_opcode_bijection_witness :
    AnInstruction.Pop ∈ all_instructions_without_args ∧
    instruction_try_from (AnInstruction.opcode (.Pop : Instruction)) = some .Pop ∧
    AnInstruction.opcode (.Pop : Instruction) ≤ 64 :=
  ⟨by decide, (claim_C1_opcode_bijection.1 .Pop (by decide)).1,
    (claim_C1_opcode_bijection.1 .Pop (by decide)).2⟩

/-- C10: for every instruction `i`, `arg i` is `some` exactly when
`size i = 2`, which happens exactly for `push`, `dup`, `swap` and `call`;
and `divine` — with or without a divination hint — has no argument and
word size 1. -/
theorem claim_C10_arg_iff_double_word :
    (∀ i : Instruction,
      ((i.arg.isSome) ↔ i.size = 2) ∧
      ((i.arg.isSome) ↔
        (∃ x, i = .Push x) ∨ (∃ x, i = .Dup x) ∨
        (∃ x, i = .Swap x) ∨ (∃ x, i = .Call x))) ∧
    (∀ hint : Option DivinationHint,
      (AnInstruction.Divine hint : Instruction).arg = none ∧
      (AnInstruction.Divine hint : Instruction).size = 1) := by
  constructor
  · intro i
    cases i <;>
      simp [AnInstruction.arg, AnInstruction.size]
  · intro hint
    exact ⟨rfl, rfl⟩

set_option maxRecDepth 10000 in
/-- C8: for every instruction of the representative list (each with a
representative argument where applicable), parsing the instruction's
displayed textual form yields exactly that instruction back. -/
theorem claim_C8_display_parse_round_trip :
    ∀ li ∈ all_labelled_instructions_with_args,
      parse (displayLabelledInstruction li) = .ok [li] := by
  decide

set_option maxRecDepth 10000 in
theorem claim_C8_display_parse_round_trip_witness :
    LabelledInstruction.Instruction (.Push (bfe 42)) ∈ all_labelled_instructions_with_args ∧
    parse (displayLabelledInstruction (.Instruction (.Push (bfe 42)))) =
      .ok [.Instruction (.Push (bfe 42))] :=
  ⟨by decide, claim_C8_display_parse_round_trip _ (by decide)⟩

/-- C9 (amended): `push` consumes exactly one following token, parsed as a
signed decimal `i128`; a negative literal `n` with `-p ≤ n` is reduced
modulo the field characteristic `p`, yielding `Push (n mod p)`; literals
below `-p` are rejected with a conversion error rather than reduced. -/
theorem claim_C9_negative_push_reduced_mod_p
    (s : String) (rest : List String) (n : Int)
    (hparse : parseI128 s = some n) (hneg : n < 0)
    (hbound : -(BQUOTIENT : Int) ≤ n) :
    parse_token "push" (s :: rest) =
      .ok ([.Instruction (.Push (bfe ((n % (BQUOTIENT : Int)).toNat)))], 1) := by
  have hq : (BQUOTIENT : Int) = 18446744069414584321 := by norm_num [BQUOTIENT]
  have hpt : parse_token "push" (s :: rest) =
      (match parse_elem (s :: rest) with
        | .error e => .error e
        | .ok elem => .ok ([.Instruction (.Push elem)], 1)) := rfl
  have hcond : (0 ≤ n + (BQUOTIENT : Int) ∧ n + (BQUOTIENT : Int) < 2 ^ 64) := by
    constructor <;> omega
  have hmod : n % (BQUOTIENT : Int) = n + BQUOTIENT := by
    rw [hq] at hbound ⊢
    omega
  have helem : parse_elem (s :: rest) = .ok (bfe ((n + (BQUOTIENT : Int)).toNat)) := by
    simp only [parse_elem, hparse, if_pos hneg, if_pos hcond]
  rw [hpt, helem, hmod]

set_option maxRecDepth 10000 in
theorem claim_C9_negative_push_reduced_mod_p_witness :
    parseI128 "-1" = some (-1) ∧
    parse_token "push" ["-1"] =
      .ok ([.Instruction (.Push (bfe (((-1 : Int) % (BQUOTIENT : Int)).toNat)))], 1) :=
  ⟨by decide,
    claim_C9_negative_push_reduced_mod_p "-1" [] (-1) (by decide) (by decide) (by decide)⟩

set_option maxRecDepth 10000 in
/-- C9 counterexample: the claim says every negative literal is reduced
modulo the field characteristic, but `push -(p+1)` fails with a conversion
error instead of yielding `Push ((-(p+1)) mod p) = Push (p-1)`: the code
adds `p` only once and then requires a `u64`-representable value. -/
theorem claim_C9_counterexample :
    parse_token "push" ["-18446744069414584322"] = .error .IntegerConversionError ∧
    parse_token "push" ["-18446744069414584322"] ≠
      .ok ([.Instruction (.Push (bfe
        (((-18446744069414584322 : Int) % (BQUOTIENT : Int)).toNat)))], 1) := by
  constructor
  · decide
  · decide

/-- the duplicate-collection fold only ever appends to its accumulator. -/
theorem find_duplicate_labels_extends :
    ∀ (labels seen duplicate_labels : List String),
      ∃ tail, find_duplicate_labels labels seen duplicate_labels = duplicate_labels ++ tail
  | [], _, _ => ⟨[], by simp [find_duplicate_labels]⟩
  | label :: rest, seen, dups => by
    unfold find_duplicate_labels
    by_cases hs : label ∈ seen
    · simp only [if_pos hs]
      by_cases hd : label ∈ dups
      · simpa [if_pos hd] using find_duplicate_labels_extends rest seen dups
      · obtain ⟨t, ht⟩ := find_duplicate_labels_extends rest seen (dups ++ [label])
        exact ⟨[label] ++ t, by simp [if_neg hd, ht]⟩
    · simpa [if_neg hs] using find_duplicate_labels_extends rest (seen ++ [label]) dups

/-- the duplicate-collection fold returns an empty list exactly when the
accumulator started empty and the labels, together with those already
seen, are pairwise distinct. -/
theorem find_duplicate_labels_eq_nil_iff :
    ∀ (labels seen duplicate_labels : List String),
      (find_duplicate_labels labels seen duplicate_labels = [] ↔
        duplicate_labels = [] ∧ labels.Nodup ∧ ∀ l ∈ labels, l ∉ seen)
  | [], seen, dups => by simp [find_duplicate_labels]
  | label :: rest, seen, dups => by
    unfold find_duplicate_labels
    by_cases hs : label ∈ seen
    · simp only [if_pos hs]
      have hne : (if label ∈ dups then dups else dups ++ [label]) ≠ [] := by
        by_cases hd : label ∈ dups
        · simp only [if_pos hd]
          intro hnil
          rw [hnil] at hd
          exact absurd hd (List.not_mem_nil label)
        · simp [if_neg hd]
      rw [find_duplicate_labels_eq_nil_iff rest seen _]
      constructor
      · rintro ⟨h1, -⟩
        exact absurd h1 hne
      · rintro ⟨-, -, hall⟩
        exact absurd hs (hall label (by simp))
    · simp only [if_neg hs]
      rw [find_duplicate_labels_eq_nil_iff rest (seen ++ [label]) dups]
      constructor
      · rintro ⟨h1, h2, h3⟩
        have hlab : label ∉ rest := fun hmem => (h3 label hmem) (by simp)
        refine ⟨h1, List.nodup_cons.mpr ⟨hlab, h2⟩, ?_⟩
        intro l hl
        rcases List.mem_cons.mp hl with rfl | hl
        · exact hs
        · exact fun hseen => (h3 l hl) (by simp [hseen])
      · rintro ⟨h1, hnd, h3⟩
        obtain ⟨hlab, h2⟩ := List.nodup_cons.mp hnd
        refine ⟨h1, h2, ?_⟩
        intro l hl hmem
        rcases List.mem_append.mp hmem with hseen | hsing
        · exact (h3 l (List.mem_cons_of_mem _ hl)) hseen
        · rcases List.mem_singleton.mp hsing with rfl
          exact hlab hl

/-- C5: when the token stream itself parses, `parse` succeeds exactly when
the declared label names are pairwise distinct; duplicate declarations are
rejected with a duplicate-labels error, and a program with all-unique
labels is never rejected for duplicate labels. -/
theorem claim_C5_duplicate_label_rejection
    (code : String) (instructions : List LabelledInstruction)
    (h : parse_tokens (tokenize code) = .ok instructions) :
    ((all_labels instructions).Nodup → parse code = .ok instructions) ∧
    (¬ (all_labels instructions).Nodup →
      ∃ duplicates, duplicates ≠ [] ∧
        parse code = .error (.DuplicateLabels duplicates)) := by
  have hp : parse code =
      (match find_duplicate_labels (all_labels instructions) [] [] with
        | [] => .ok instructions
        | duplicates => .error (.DuplicateLabels duplicates)) := by
    unfold parse parse_token_list
    rw [h]
  constructor
  · intro hnd
    have hnil : find_duplicate_labels (all_labels instructions) [] [] = [] :=
      (find_duplicate_labels_eq_nil_iff _ _ _).mpr ⟨rfl, hnd, by simp⟩
    rw [hp, hnil]
  · intro hnd
    cases hfd : find_duplicate_labels (all_labels instructions) [] [] with
    | nil => exact absurd ((find_duplicate_labels_eq_nil_iff _ _ _).mp hfd).2.1 hnd
    | cons d ds =>
      refine ⟨d :: ds, by simp, ?_⟩
      rw [hp, hfd]

set_option maxRecDepth 10000 in
theorem claim_C5_duplicate_label_rejection_witness :
    parse "foo: halt" = .ok [.Label "foo", .Instruction .Halt] ∧
    ∃ duplicates, duplicates ≠ [] ∧
      parse "foo: halt foo: halt" = .error (.DuplicateLabels duplicates) :=
  ⟨(claim_C5_duplicate_label_rejection "foo: halt"
      [.Label "foo", .Instruction .Halt] (by decide)).1 (by decide),
   (claim_C5_duplicate_label_rejection "foo: halt foo: halt"
      [.Label "foo", .Instruction .Halt, .Label "foo", .Instruction .Halt]
      (by decide)).2 (by decide)⟩

theorem spec_label_address_from_eq_none
    (name : String) :
    ∀ (program : List LabelledInstruction) (addr : Nat),
      name ∉ declared_labels program →
      spec_label_address_from program addr name = none
  | [], _, _ => rfl
  | .Label l :: rest, addr, h => by
    have hne : name ≠ l := by
      intro heq
      exact h (by simp [declared_labels, heq])
    have hrest : name ∉ declared_labels rest := by
      intro hmem
      exact h (by simp [declared_labels] at hmem ⊢; exact Or.inr hmem)
    simp only [spec_label_address_from, if_neg hne]
    exact spec_label_address_from_eq_none name rest addr hrest
  | .Instruction i :: rest, addr, h => by
    have hrest : name ∉ declared_labels rest := by
      intro hmem
      exact h (by simp [declared_labels] at hmem ⊢; exact hmem)
    exact spec_label_address_from_eq_none name rest (addr + i.size) hrest

theorem spec_label_address_from_isSome
    (name : String) :
    ∀ (program : List LabelledInstruction) (addr : Nat),
      name ∈ declared_labels program →
      ∃ a, spec_label_address_from program addr name = some a
  | [], _, h => absurd h (by simp [declared_labels])
  | .Label l :: rest, addr, h => by
    by_cases hne : name = l
    · exact ⟨addr, by simp [spec_label_address_from, if_pos hne]⟩
    · have hrest : name ∈ declared_labels rest := by
        simp [declared_labels] at h
        rcases h with h | h
        · exact absurd h hne
        · simpa [declared_labels] using h
      simpa [spec_label_address_from, if_neg hne] using
        spec_label_address_from_isSome name rest addr hrest
  | .Instruction i :: rest, addr, h => by
    have hrest : name ∈ declared_labels rest := by
      simpa [declared_labels] using h
    simpa [spec_label_address_from] using
      spec_label_address_from_isSome name rest (addr + i.size) hrest

/-- pass 1 computes exactly the spec addresses: under unique labels, the
built map answers the spec address for declared names and falls back to
the initial map otherwise. -/
theorem build_label_map_eq_spec :
    ∀ (program : List LabelledInstruction),
      (declared_labels program).Nodup →
      ∀ (label_map : String → Option Nat) (instruction_pointer : Nat) (name : String),
        build_label_map program label_map instruction_pointer name =
          match spec_label_address_from program instruction_pointer name with
          | some a => some a
          | none => label_map name
  | [], _, _, _, _ => rfl
  | .Label l :: rest, hnodup, label_map, ip, name => by
    have hnd : (declared_labels rest).Nodup ∧ l ∉ declared_labels rest := by
      have : declared_labels (.Label l :: rest) = l :: declared_labels rest := by
        simp [declared_labels]
      rw [this] at hnodup
      exact ⟨(List.nodup_cons.mp hnodup).2, (List.nodup_cons.mp hnodup).1⟩
    by_cases heq : name = l
    · subst heq
      have hnone : spec_label_address_from rest ip name = none :=
        spec_label_address_from_eq_none name rest ip hnd.2
      simp only [build_label_map, spec_label_address_from, if_pos rfl]
      rw [build_label_map_eq_spec rest hnd.1, hnone]
      simp [insertLabel]
    · simp only [build_label_map, spec_label_address_from, if_neg heq]
      rw [build_label_map_eq_spec rest hnd.1]
      cases spec_label_address_from rest ip name with
      | some a => rfl
      | none => simp [insertLabel, if_neg heq]
  | .Instruction i :: rest, hnodup, label_map, ip, name => by
    have hnd : (declared_labels rest).Nodup := by
      have : declared_labels (.Instruction i :: rest) = declared_labels rest := by
        simp [declared_labels]
      rwa [this] at hnodup
    simp only [build_label_map, spec_label_address_from]
    exact build_label_map_eq_spec rest hnd label_map (ip + i.size) name

theorem map_call_address_congr {Dest NewDest : Type}
    (i : AnInstruction Dest) (f g : Dest → NewDest)
    (h : ∀ l, i = .Call l → f l = g l) :
    i.map_call_address f = i.map_call_address g := by
  cases i <;> simp only [AnInstruction.map_call_address]
  rw [h _ rfl]

theorem mapM_eq_some_of_forall
    (f : LabelledInstruction → Option (List Instruction))
    (g : LabelledInstruction → List Instruction) :
    ∀ (l : List LabelledInstruction), (∀ x ∈ l, f x = some (g x)) →
      l.mapM f = some (l.map g)
  | [], _ => rfl
  | x :: xs, h => by
    rw [List.mapM_cons, h x (by simp),
      mapM_eq_some_of_forall f g xs (fun y hy => h y (by simp [hy]))]
    rfl

theorem flatten_map_helper
    (resolve : AnInstruction String → Instruction) :
    ∀ (program : List LabelledInstruction),
      (program.map fun li =>
        match li with
        | .Label _ => ([] : List Instruction)
        | .Instruction instr => [resolve instr]).flatten =
      program.filterMap fun li =>
        match li with
        | .Label _ => none
        | .Instruction instr => some (resolve instr)
  | [] => rfl
  | .Label _ :: rest => by
    simpa using flatten_map_helper resolve rest
  | .Instruction i :: rest => by
    simpa using flatten_map_helper resolve rest

/-- C4: for a labelled program with pairwise-distinct label names whose
called labels are all declared, `convert_labels` assigns every declared
label the sum of the word sizes of the instructions preceding its
declaration, replaces every call destination with that absolute address,
and drops the label declarations. -/
theorem claim_C4_label_resolution
    (program : List LabelledInstruction)
    (hnodup : (declared_labels program).Nodup)
    (hcalls : ∀ l ∈ called_labels program, l ∈ declared_labels program) :
    (∀ name addr, spec_label_address program name = some addr →
      build_label_map program (fun _ => none) 0 name = some addr) ∧
    convert_labels program = some (spec_resolved_program program) := by
  have hmap : ∀ name,
      build_label_map program (fun _ => none) 0 name =
        match spec_label_address program name with
        | some a => some a
        | none => none :=
    fun name => build_label_map_eq_spec program hnodup (fun _ => none) 0 name
  constructor
  · intro name addr haddr
    rw [hmap name, haddr]
  · have hg : ∀ li ∈ program,
        convert_labels_helper li (build_label_map program (fun _ => none) 0) =
          some (match li with
            | .Label _ => ([] : List Instruction)
            | .Instruction instr =>
              [instr.map_call_address fun label_name =>
                bfe ((spec_label_address program label_name).getD 0)]) := by
      intro li hli
      match li with
      | .Label _ => rfl
      | .Instruction instr =>
        simp only [convert_labels_helper]
        match hinstr : instr with
        | .Call label_name =>
          have hdecl : label_name ∈ declared_labels program := by
            refine hcalls label_name ?_
            exact List.mem_filterMap.mpr ⟨.Instruction (.Call label_name), hli, rfl⟩
          obtain ⟨a, ha⟩ := spec_label_address_from_isSome label_name program 0 hdecl
          have ha' : spec_label_address program label_name = some a := ha
          have hlook : build_label_map program (fun _ => none) 0 label_name = some a := by
            rw [hmap label_name, ha']
          simp [map_call_address_checked, hlook, AnInstruction.map_call_address, ha']
        | .Pop => rfl
        | .Push x => rfl
        | .Divine x => rfl
        | .Dup x => rfl
        | .Swap x => rfl
        | .Nop => rfl
        | .Skiz => rfl
        | .Return => rfl
        | .Recurse => rfl
        | .Assert => rfl
        | .Halt => rfl
        | .ReadMem => rfl
        | .WriteMem => rfl
        | .Hash => rfl
        | .DivineSibling => rfl
        | .AssertVector => rfl
        | .Add => rfl
        | .Mul => rfl
        | .Invert => rfl
        | .Split => rfl
        | .Eq => rfl
        | .Lsb => rfl
        | .XxAdd => rfl
        | .XxMul => rfl
        | .XInvert => rfl
        | .XbMul => rfl
        | .ReadIo => rfl
        | .WriteIo => rfl
    show (program.mapM fun labelled_instruction =>
        convert_labels_helper labelled_instruction
          (build_label_map program (fun _ => none) 0)).map List.flatten =
      some (spec_resolved_program program)
    rw [mapM_eq_some_of_forall _ _ program hg]
    simp only [Option.map_some']
    rw [flatten_map_helper]
    rfl

theorem claim_C4_label_resolution_witness :
    (declared_labels [.Instruction (.Push (bfe 1)), .Label "foo",
      .Instruction (.Call "foo"), .Instruction .Halt]).Nodup ∧
    convert_labels [.Instruction (.Push (bfe 1)), .Label "foo",
      .Instruction (.Call "foo"), .Instruction .Halt] =
      some (spec_resolved_program [.Instruction (.Push (bfe 1)), .Label "foo",
        .Instruction (.Call "foo"), .Instruction .Halt]) :=
  ⟨by decide,
    (claim_C4_label_resolution
      [.Instruction (.Push (bfe 1)), .Label "foo",
        .Instruction (.Call "foo"), .Instruction .Halt]
      (by decide) (by decide)).2⟩

theorem rescue_xlix_round_constants_used_isSome
    (ROUND_CONSTANTS : Nat → BFieldElement) (row_idx : Fin (NUM_ROUNDS + 1)) :
    (rescue_xlix_round_constants_by_round_number ROUND_CONSTANTS
      (row_idx.val + 1)).isSome := by
  fin_cases row_idx <;>
    simp [rescue_xlix_round_constants_by_round_number, NUM_ROUNDS]

/-- C2 (amended): `append_hash_trace` leaves the processor trace alone and
appends exactly `R + 1 = NUM_ROUNDS + 1` rows to the hash trace; row
`row_idx` carries round number `row_idx + 1`, the state snapshot of that
round, and that round's constants — the fixed table slice for rounds
`1 … R`, all zeros for the terminal round `R + 1`. The constants lookup
itself maps round number `0` (padding) and `R + 1` (output) to all-zero
constants and rounds `1 … R` to the table slice for that round. -/
theorem claim_C2_append_hash_trace_block
    (ROUND_CONSTANTS : Nat → BFieldElement) (aet : AlgebraicExecutionTrace)
    (hash_trace : Fin (NUM_ROUNDS + 1) → Fin STATE_SIZE → BFieldElement) :
    ((aet.append_hash_trace ROUND_CONSTANTS hash_trace).processor_matrix =
      aet.processor_matrix) ∧
    ((aet.append_hash_trace ROUND_CONSTANTS hash_trace).hash_matrix.length =
      aet.hash_matrix.length + (NUM_ROUNDS + 1)) ∧
    ((aet.append_hash_trace ROUND_CONSTANTS hash_trace).hash_matrix =
      aet.hash_matrix ++ List.ofFn fun row_idx : Fin (NUM_ROUNDS + 1) =>
        { roundnumber := bfe (row_idx.val + 1)
          state := List.ofFn fun st_idx : Fin STATE_SIZE => hash_trace row_idx st_idx
          constants :=
            if row_idx.val + 1 = NUM_ROUNDS + 1 then
              List.replicate NUM_ROUND_CONSTANTS (bfe 0)
            else (List.range NUM_ROUND_CONSTANTS).map fun rc_idx =>
              ROUND_CONSTANTS (NUM_ROUND_CONSTANTS * row_idx.val + rc_idx) }) ∧
    (rescue_xlix_round_constants_by_round_number ROUND_CONSTANTS 0 =
      some (List.replicate NUM_ROUND_CONSTANTS (bfe 0))) ∧
    (rescue_xlix_round_constants_by_round_number ROUND_CONSTANTS (NUM_ROUNDS + 1) =
      some (List.replicate NUM_ROUND_CONSTANTS (bfe 0))) ∧
    (∀ r : Fin NUM_ROUNDS,
      rescue_xlix_round_constants_by_round_number ROUND_CONSTANTS (r.val + 1) =
        some ((List.range NUM_ROUND_CONSTANTS).map fun rc_idx =>
          ROUND_CONSTANTS (NUM_ROUND_CONSTANTS * r.val + rc_idx))) := by
  refine ⟨rfl, by simp [AlgebraicExecutionTrace.append_hash_trace, NUM_ROUNDS], ?_, rfl, rfl, ?_⟩
  · show aet.hash_matrix ++ _ = aet.hash_matrix ++ _
    refine congrArg (aet.hash_matrix ++ ·) ?_
    rw [List.ofFn_inj]
    funext row_idx
    fin_cases row_idx <;> rfl
  · intro r
    fin_cases r <;> rfl

/-- C2 counterexample: the claim describes the appended block as having a
round-0 row (rows numbered `0 … R` plus a terminal row); on a concrete
invocation the appended rows carry round numbers `1 … R + 1` and no row
carries round number `0`. -/
theorem claim_C2_counterexample :
    ((AlgebraicExecutionTrace.empty.append_hash_trace demo_round_constants
        zero_hash_trace).hash_matrix.map fun row => row.roundnumber) =
      [bfe 1, bfe 2, bfe 3, bfe 4, bfe 5, bfe 6, bfe 7, bfe 8, bfe 9] ∧
    ¬ bfe 0 ∈ ((AlgebraicExecutionTrace.empty.append_hash_trace demo_round_constants
        zero_hash_trace).hash_matrix.map fun row => row.roundnumber) := by
  constructor
  · decide
  · decide

theorem apply_vm_output_processor (ROUND_CONSTANTS : Nat → BFieldElement)
    (aet : AlgebraicExecutionTrace) (vm_output : Option VMOutput) :
    (apply_vm_output ROUND_CONSTANTS aet vm_output).processor_matrix =
      aet.processor_matrix := by
  match vm_output with
  | some (.XlixTrace t) => rfl
  | some (.WriteOutputSymbol w) => rfl
  | none => rfl

/-- every completed run of the loop extends the processor trace by exactly
one row per successful step, never dropping rows. -/
theorem simulate_go_processor_extends {S E : Type}
    (ROUND_CONSTANTS : Nat → BFieldElement) (m : StepMachine S E) :
    ∀ (fuel : Nat) (state : S) (stdin secret_in : List BFieldElement)
      (aet : AlgebraicExecutionTrace) (stdout : List BFieldElement)
      (aet_final : AlgebraicExecutionTrace) (stdout_final : List BFieldElement)
      (err : Option E) (n : Nat),
      simulate_go ROUND_CONSTANTS m fuel state stdin secret_in aet stdout =
        some (aet_final, stdout_final, err, n) →
      ∃ tail, aet_final.processor_matrix = aet.processor_matrix ++ tail ∧
        tail.length = n
  | 0, state, stdin, secret_in, aet, stdout, aet_final, stdout_final, err, n => by
    intro h
    simp only [simulate_go] at h
    split at h
    · injection h with h1
      injection h1 with ha h2
      injection h2 with hb h3
      injection h3 with hc hd
      exact ⟨[], by rw [← ha]; simp, by simp [← hd]⟩
    · exact absurd h (by simp)
  | fuel + 1, state, stdin, secret_in, aet, stdout, aet_final, stdout_final, err, n => by
    intro h
    simp only [simulate_go] at h
    split at h
    · injection h with h1
      injection h1 with ha h2
      injection h2 with hb h3
      injection h3 with hc hd
      exact ⟨[], by rw [← ha]; simp, by simp [← hd]⟩
    · split at h
      · injection h with h1
        injection h1 with ha h2
        injection h2 with hb h3
        injection h3 with hc hd
        exact ⟨[], by rw [← ha]; simp, by simp [← hd]⟩
      · rename_i state' stdin' secret_in' vm_output hstep
        split at h
        · rename_i aet_mid stdout_mid err_mid k heq
          injection h with h1
          injection h1 with ha h2
          injection h2 with hb h3
          injection h3 with hc hd
          obtain ⟨t, ht, hlen⟩ := simulate_go_processor_extends ROUND_CONSTANTS m
            fuel state' stdin' secret_in' _ _ _ _ _ _ heq
          refine ⟨[m.to_processor_row state'] ++ t, ?_, ?_⟩
          · rw [← ha, ht]
            simp [record_processor_row, apply_vm_output_processor]
          · simp [← hd, hlen]
        · exact absurd h (by simp)

/-- C3: a run of `simulate` that performs `N` steps and halts without
error yields a processor trace of exactly `N + 1` rows, the first row
being the pre-execution state recorded before any instruction executes. -/
theorem claim_C3_trace_row_count {S E : Type}
    (ROUND_CONSTANTS : Nat → BFieldElement) (m : StepMachine S E)
    (fuel : Nat) (state0 : S) (stdin secret_in : List BFieldElement)
    (aet : AlgebraicExecutionTrace) (stdout : List BFieldElement) (N : Nat)
    (h : simulate ROUND_CONSTANTS m fuel state0 stdin secret_in =
      some (aet, stdout, none, N)) :
    aet.processor_matrix.length = N + 1 ∧
    aet.processor_matrix.head? = some (m.to_processor_row state0) := by
  obtain ⟨tail, ht, hlen⟩ := simulate_go_processor_extends ROUND_CONSTANTS m
    fuel state0 stdin secret_in _ _ _ _ _ _ h
  constructor
  · rw [ht]
    simp [hlen, Nat.add_comm]
  · rw [ht]
    rfl

theorem claim_C3_trace_row_count_witness :
    simulate demo_round_constants demo_step_machine 10 0 [] [] =
      some ({ processor_matrix := [[bfe 0], [bfe 1], [bfe 2]], hash_matrix := [] },
        [], none, 2) ∧
    ({ processor_matrix := [[bfe 0], [bfe 1], [bfe 2]], hash_matrix := [] } :
      AlgebraicExecutionTrace).processor_matrix.length = 2 + 1 :=
  ⟨by decide,
    (claim_C3_trace_row_count demo_round_constants demo_step_machine 10 0 [] []
      { processor_matrix := [[bfe 0], [bfe 1], [bfe 2]], hash_matrix := [] }
      [] 2 (by decide)).1⟩

/-- C6: when the external step function fails, `simulate` halts
immediately and hands back the very AET and output accumulated so far
together with the error as an inspectable value; in particular the
returned partial trace still holds the initial row plus one row per
successful step. -/
theorem claim_C6_error_returns_partial_results {S E : Type}
    (ROUND_CONSTANTS : Nat → BFieldElement) (m : StepMachine S E) :
    (∀ (fuel : Nat) (state : S) (stdin secret_in : List BFieldElement)
        (aet : AlgebraicExecutionTrace) (stdout : List BFieldElement) (err : E),
      m.is_complete state = false →
      m.step_mut state stdin secret_in = .error err →
      simulate_go ROUND_CONSTANTS m (fuel + 1) state stdin secret_in aet stdout =
        some (aet, stdout, some err, 0)) ∧
    (∀ (fuel : Nat) (state0 : S) (stdin secret_in : List BFieldElement)
        (aet : AlgebraicExecutionTrace) (stdout : List BFieldElement)
        (err : E) (N : Nat),
      simulate ROUND_CONSTANTS m fuel state0 stdin secret_in =
        some (aet, stdout, some err, N) →
      aet.processor_matrix.length = N + 1 ∧
      aet.processor_matrix.head? = some (m.to_processor_row state0)) := by
  constructor
  · intro fuel state stdin secret_in aet stdout err hc hstep
    simp [simulate_go, hc, hstep]
  · intro fuel state0 stdin secret_in aet stdout err N h
    obtain ⟨tail, ht, hlen⟩ := simulate_go_processor_extends ROUND_CONSTANTS m
      fuel state0 stdin secret_in _ _ _ _ _ _ h
    constructor
    · rw [ht]
      simp [hlen, Nat.add_comm]
    · rw [ht]
      rfl

theorem claim_C6_error_returns_partial_results_witness :
    simulate demo_round_constants demo_fail_after_one 9 0 [] [] =
      some ({ processor_matrix := [[bfe 0], [bfe 1]], hash_matrix := [] },
        [bfe 7], some "boom", 1) ∧
    ({ processor_matrix := [[bfe 0], [bfe 1]], hash_matrix := [] } :
      AlgebraicExecutionTrace).processor_matrix.length = 1 + 1 ∧
    simulate_go demo_round_constants demo_fail_after_one 1 1 [] []
        { processor_matrix := [[bfe 0], [bfe 1]], hash_matrix := [] } [bfe 7] =
      some ({ processor_matrix := [[bfe 0], [bfe 1]], hash_matrix := [] },
        [bfe 7], some "boom", 0) :=
  ⟨by decide,
    ((claim_C6_error_returns_partial_results demo_round_constants
      demo_fail_after_one).2 9 0 [] []
      { processor_matrix := [[bfe 0], [bfe 1]], hash_matrix := [] }
      [bfe 7] "boom" 1 (by decide)).1,
    (claim_C6_error_returns_partial_results demo_round_constants
      demo_fail_after_one).1 0 1 [] []
      { processor_matrix := [[bfe 0], [bfe 1]], hash_matrix := [] }
      [bfe 7] "boom" rfl rfl⟩

/-- C7 (amended): a row reflecting the new state is appended after every
successful step, and only then; when a step fails, the error is returned
immediately and no row is appended for that failing step. -/
theorem claim_C7_row_appended_only_on_success {S E : Type}
    (ROUND_CONSTANTS : Nat → BFieldElement) (m : StepMachine S E)
    (fuel : Nat) (state : S) (stdin secret_in : List BFieldElement)
    (aet : AlgebraicExecutionTrace) (stdout : List BFieldElement)
    (hc : m.is_complete state = false) :
    (∀ err, m.step_mut state stdin secret_in = .error err →
      simulate_go ROUND_CONSTANTS m (fuel + 1) state stdin secret_in aet stdout =
        some (aet, stdout, some err, 0)) ∧
    (∀ state' stdin' secret_in' vm_output,
      m.step_mut state stdin secret_in = .ok (state', stdin', secret_in', vm_output) →
      (record_processor_row m (apply_vm_output ROUND_CONSTANTS aet vm_output)
          state').processor_matrix =
        aet.processor_matrix ++ [m.to_processor_row state'] ∧
      simulate_go ROUND_CONSTANTS m (fuel + 1) state stdin secret_in aet stdout =
        (match simulate_go ROUND_CONSTANTS m fuel state' stdin' secret_in'
            (record_processor_row m (apply_vm_output ROUND_CONSTANTS aet vm_output)
              state')
            (apply_vm_output_stdout stdout vm_output) with
          | some (aet_final, stdout_final, err, n) =>
            some (aet_final, stdout_final, err, n + 1)
          | none => none)) := by
  constructor
  · intro err hstep
    simp [simulate_go, hc, hstep]
  · intro state' stdin' secret_in' vm_output hstep
    constructor
    · simp [record_processor_row, apply_vm_output_processor]
    · simp [simulate_go, hc, hstep]

theorem claim_C7_row_appended_only_on_success_witness :
    (record_processor_row demo_step_machine
        (apply_vm_output demo_round_constants
          { processor_matrix := [[bfe 0]], hash_matrix := [] } none)
        1).processor_matrix =
      [[bfe 0]] ++ [[bfe 1]] ∧
    simulate_go demo_round_constants demo_step_machine 2 1 [] []
        { processor_matrix := [[bfe 0]], hash_matrix := [] } [] =
      some ({ processor_matrix := [[bfe 0], [bfe 2]], hash_matrix := [] },
        [], none, 1) :=
  ⟨((claim_C7_row_appended_only_on_success demo_round_constants demo_step_machine
      1 0 [] [] { processor_matrix := [[bfe 0]], hash_matrix := [] } [] rfl).2
      1 [] [] none rfl).1,
    by decide⟩

/-- C7 counterexample: the state machine fails on its first step, the run
returns the error, yet the returned processor trace holds only the single
initial row — no row was appended for the state reached by the failing
step, contradicting the claim that such a row is appended before the
error is returned. -/
theorem claim_C7_counterexample :
    simulate demo_round_constants demo_fail_machine 5 0 [] [] =
      some ({ processor_matrix := [[bfe 0]], hash_matrix := [] },
        [], some "crash", 0) ∧
    ¬ 2 ≤ ({ processor_matrix := [[bfe 0]], hash_matrix := [] } :
        AlgebraicExecutionTrace).processor_matrix.length := by
  constructor
  · decide
  · decide
